import Mathlib

/-!
Verification development for the image-based furniture search repository:
a shallow embedding of the retrieval-and-ranking pipeline
(backend/src/services/searchService.ts, backend/src/services/embeddingCache.ts,
backend/src/services/aiProvider.ts) together with proofs about it.

Modelling conventions:
* JavaScript numbers are modelled as rationals; the scoring arithmetic of the
  source uses only +, -, *, /, abs, min, max, which are exact on the inputs
  the claims concern.  cosineSimilarity, which takes a square root, is
  modelled over the reals.
* JavaScript strings are Lean Strings; toLowerCase / trim / the regex-based
  tokenizer are implemented over the character lists of the strings.
* The module-global Map used as the embedding cache is an insertion-ordered
  association list, threaded through the functions that mutate it; Map.set
  semantics (update in place, else append) are reproduced by cacheSet.
* Asynchronous provider calls are oracles (functions returning Except);
  a thrown exception is the Except.error case.
-/

namespace FurnitureSearch

/-! ## String primitives (JavaScript semantics over character lists) -/

/-- Models JavaScript String.prototype.toLowerCase for the ASCII text the
pipeline handles. -/
def lowerStr (s : String) : String := String.mk (s.data.map Char.toLower)

/-- Models JavaScript String.prototype.trim: whitespace stripped from both
ends. -/
def trimStr (s : String) : String :=
  String.mk (((s.data.dropWhile Char.isWhitespace).reverse.dropWhile Char.isWhitespace).reverse)

/-- Models the source's `x.replace(/s$/, "")`: one trailing letter s removed. -/
def stripS (s : String) : String :=
  if s.data.getLast? = some 's' then String.mk s.data.dropLast else s

/-- Does the list start with the pattern (second argument)? -/
def startsWithList [DecidableEq α] : List α → List α → Bool
  | _, [] => true
  | [], _ :: _ => false
  | a :: as, b :: bs => if a = b then startsWithList as bs else false

/-- Does the list contain the pattern as a contiguous subsequence? -/
def containsList [DecidableEq α] (pat : List α) : List α → Bool
  | [] => pat.isEmpty
  | a :: rest => startsWithList (a :: rest) pat || containsList pat rest

/-- Models JavaScript `s.includes(pat)`. -/
def strIncludes (s pat : String) : Bool := containsList pat.data s.data

/-- The tokenizer's character scrub, from `tokenize`: after lowercasing,
every character outside [a-z0-9] and whitespace becomes a space
(the regex replace of /[^a-z0-9\s]/g). -/
def scrubChar (c : Char) : Char :=
  if (('a' ≤ c && c ≤ 'z') || ('0' ≤ c && c ≤ '9')) || c.isWhitespace then c else ' '

/-- Split a character list at whitespace; empty pieces are kept here and
dropped by the caller, matching split followed by filter(Boolean). -/
def splitWsAux : List Char → List Char → List String
  | [], acc => [String.mk acc.reverse]
  | c :: cs, acc =>
    if c.isWhitespace then String.mk acc.reverse :: splitWsAux cs []
    else splitWsAux cs (c :: acc)

/-- Models `tokenize` of searchService.ts: lowercase, replace every character
outside [a-z0-9 whitespace] with a space, split on whitespace, drop empties. -/
def tokenize (text : String) : List String :=
  (splitWsAux ((lowerStr text).data.map scrubChar) []).filter (fun t => decide (t ≠ ""))

/-- Models `computeLexicalScore` of searchService.ts: the fraction of query
tokens found among the text's tokens (the text tokens are consulted as a
set, so only membership matters). -/
def computeLexicalScore (query text : String) : ℚ :=
  let qTokens := tokenize query
  let tTokens := tokenize text
  if qTokens.length = 0 ∨ tTokens.isEmpty then 0
  else ((qTokens.filter (fun t => tTokens.contains t)).length : ℚ) / (qTokens.length : ℚ)

/-! ## Data model -/

/-- The provider identifiers of aiProvider.ts. -/
inductive AIProvider where
  | openai
  | anthropic
  | google
deriving DecidableEq

/-- A catalog item (types.ts, interface Product). -/
structure Product where
  _id : String
  title : String
  description : String
  category : String
  type : String
  price : ℚ
  width : ℚ
  height : ℚ
  depth : ℚ
deriving DecidableEq

/-- The search configuration after the merge `{ ...defaultConfig, ...userConfig }`
in performSearch: the six numeric fields always carry a value afterwards,
the optional fields stay optional. -/
structure SearchConfig where
  maxCandidates : Nat
  topK : Nat
  minScore : ℚ
  imageWeight : ℚ
  textWeight : ℚ
  priceProximityWeight : ℚ
  priceRangeEnabled : Bool
  priceRangeMin : Option ℚ
  priceRangeMax : Option ℚ
  aiProvider : Option AIProvider
  embeddingProvider : Option AIProvider
deriving DecidableEq

/-- The defaults of searchService.ts (defaultConfig). -/
def defaultConfig : SearchConfig :=
  { maxCandidates := 200, topK := 20, minScore := 35/100,
    imageWeight := 1/2, textWeight := 3/10, priceProximityWeight := 1/5,
    priceRangeEnabled := false, priceRangeMin := none, priceRangeMax := none,
    aiProvider := none, embeddingProvider := none }

/-- The structured result of the classification stage (interface
FurnitureAnalysis in searchService.ts). -/
structure FurnitureAnalysis where
  isFurniture : Bool
  category : Option String
  type : Option String
  description : String

/-- A scored candidate.  The source renders the explanation as a single
string of name=value pieces; it is modelled as the list of named sub-scores
in the order the source pushes them. -/
structure ScoredProduct where
  product : Product
  score : ℚ
  explanation : List (String × ℚ)
deriving DecidableEq

/-! ## Provider selection (performSearch, lines 40-51) and the Anthropic
embedding stub (aiProvider.ts, createAnthropicProvider.createEmbeddings) -/

/-- The message thrown by the Anthropic variant's createEmbeddings; the spec's
UnsupportedCapabilityError corresponds to this thrown error. -/
def unsupportedCapabilityMessage : String :=
  "Anthropic does not provide a native embeddings API. Please use OpenAI for embeddings or configure a different provider for embeddings."

/-- Models createAnthropicProvider(...).createEmbeddings of aiProvider.ts: it
throws unconditionally, before any network call. -/
def anthropicCreateEmbeddings (_texts : List String) : Except String (List (List ℚ)) :=
  Except.error unsupportedCapabilityMessage

/-- The embedding provider performSearch actually uses (searchService.ts
lines 40-51): the configured embedding provider, defaulting to the vision
provider, defaulting to openai; then, when the result is anthropic, it is
silently replaced by openai. -/
def resolveEmbeddingProvider (config : SearchConfig) : AIProvider :=
  let provider := config.aiProvider.getD AIProvider.openai
  let embeddingProvider := config.embeddingProvider.getD provider
  if embeddingProvider = AIProvider.anthropic then AIProvider.openai else embeddingProvider

/-! ## The typeMatch ladder (searchService.ts lines 224-277) -/

/-- The fixed synonym table of searchService.ts (similarTypes). -/
def similarTypes (k : String) : Option (List String) :=
  if k = "bench" then some ["bench", "stool", "seat", "ottoman"]
  else if k = "chair" then some ["chair", "seat", "stool", "armchair", "recliner"]
  else if k = "sofa" then some ["sofa", "couch", "loveseat", "settee", "divan"]
  else if k = "desk" then some ["desk", "table", "workstation", "writing desk"]
  else if k = "table" then some ["table", "desk", "counter", "dining table", "coffee table", "side table"]
  else if k = "cabinet" then some ["cabinet", "cupboard", "wardrobe", "armoire"]
  else if k = "shelf" then some ["shelf", "shelving", "bookcase", "bookshelf"]
  else if k = "bed" then some ["bed", "mattress", "headboard"]
  else if k = "dresser" then some ["dresser", "chest", "bureau", "drawer"]
  else if k = "lamp" then some ["lamp", "light", "lighting"]
  else none

/-- Models the typeMatch computation of performSearch (lines 224-277).
The guard on analysis.type is the JavaScript truthiness test, so an absent
or empty type yields 0. -/
def typeMatchScore (analysisType : Option String) (product : Product) : ℚ :=
  match analysisType with
  | none => 0
  | some ty =>
    if ty = "" then 0
    else
      let queryType := trimStr (lowerStr ty)
      let queryTypeSingular := stripS queryType
      let productType := trimStr (lowerStr product.type)
      let productTypeSingular := stripS productType
      let productTitle := lowerStr product.title
      let productDesc := lowerStr product.description
      if productType = queryType ∨ productTypeSingular = queryType ∨
         productType = queryTypeSingular then 1
      else if strIncludes productType queryType ∨ strIncludes queryType productType ∨
              strIncludes productType queryTypeSingular ∨
              strIncludes queryTypeSingular productType then 8/10
      else if strIncludes productTitle queryType ∨ strIncludes productTitle queryTypeSingular ∨
              strIncludes productDesc queryType ∨ strIncludes productDesc queryTypeSingular then 6/10
      else
        let similar := ((similarTypes queryType).orElse
          (fun _ => similarTypes queryTypeSingular)).getD []
        if similar.any (fun t =>
             let tSingular := stripS t
             strIncludes productType t || strIncludes productType tSingular ||
             strIncludes productTitle t || strIncludes productTitle tSingular ||
             strIncludes productDesc t || strIncludes productDesc tSingular) then 4/10
        else 0

/-- Models the categoryMatch computation of performSearch (lines 279-290). -/
def categoryMatchScore (analysisCategory : Option String) (product : Product) : ℚ :=
  match analysisCategory with
  | none => 0
  | some cat =>
    if cat = "" then 0
    else
      let productCategory := lowerStr product.category
      let queryCategory := lowerStr cat
      if productCategory = queryCategory then 1
      else if strIncludes productCategory queryCategory ∨
              strIncludes queryCategory productCategory then 7/10
      else 0

/-! ## Target price extraction (performSearch, lines 213-214) -/

/-- The maximal digit run at the head of the character list. -/
def digitsAtHead (cs : List Char) : List Char := cs.takeWhile Char.isDigit

/-- First match of the regex pattern: a dollar sign followed by one or more
digits; the captured digit run is returned. -/
def matchDollarSign : List Char → Option (List Char)
  | [] => none
  | '$' :: rest =>
    let d := digitsAtHead rest
    if d.isEmpty then matchDollarSign rest else some d
  | _ :: rest => matchDollarSign rest

/-- First match of the regex pattern: one or more digits, optional
whitespace, then the word dollar (case-insensitive, optional trailing s);
the captured digit run is returned.  Backtracking inside the digit run can
never produce a match a shorter scan start misses, so a plain left-to-right
scan is equivalent. -/
def matchNumberDollars : List Char → Option (List Char)
  | [] => none
  | c :: rest =>
    if c.isDigit then
      let ds := c :: digitsAtHead rest
      let tail := (rest.drop (digitsAtHead rest).length).dropWhile Char.isWhitespace
      if (tail.take 6).map Char.toLower = "dollar".data then some ds
      else matchNumberDollars rest
    else matchNumberDollars rest

/-- The numeric value of a digit run (parseFloat on a plain digit string). -/
def parseDigits (ds : List Char) : ℚ :=
  ((ds.foldl (fun n c => n * 10 + (c.toNat - 48)) 0 : Nat) : ℚ)

/-- Models lines 213-214 of performSearch: the target price extracted from
the user free text by the currency pattern, else the n-dollars pattern,
else absent. -/
def extractTargetPrice (queryText : Option String) : Option ℚ :=
  match queryText with
  | none => none
  | some q =>
    match matchDollarSign q.data with
    | some ds => some (parseDigits ds)
    | none =>
      match matchNumberDollars q.data with
      | some ds => some (parseDigits ds)
      | none => none

/-! ## Price proximity score (performSearch, lines 295-307) -/

/-- The mean price of a list of products (the reduce / length of line 303). -/
def meanPrice (products : List Product) : ℚ :=
  (products.map Product.price).sum / (products.length : ℚ)

/-- Models the priceScore computation of performSearch (lines 295-307).
The outer guard is the source's truthiness-and-positivity test on
priceProximityWeight, equivalent to strict positivity.  `products` is the
list the source reads the average from: the full (optionally price-range
filtered) catalog, not the candidate slice. -/
def priceScoreOf (config : SearchConfig) (targetPrice : Option ℚ)
    (products : List Product) (product : Product) : ℚ :=
  if 0 < config.priceProximityWeight then
    match targetPrice with
    | some target =>
      let priceDiff := |product.price - target|
      let maxPrice := max product.price target
      if 0 < maxPrice then 1 - min (priceDiff / maxPrice) 1 else 0
    | none =>
      let avgPrice := meanPrice products
      let priceDiff := |product.price - avgPrice|
      if 0 < avgPrice then 1 - min (priceDiff / avgPrice) (1/2) else 1/2
  else 0

/-! ## The embedding cache as data (embeddingCache.ts) -/

/-- The process-wide cache: an insertion-ordered association list standing
for the module-level `Map productEmbeddingCache`. -/
abbrev EmbCache := List (String × List ℚ)

/-- Map.get on the association list. -/
def cacheGet : EmbCache → String → Option (List ℚ)
  | [], _ => none
  | (k', v) :: rest, k => if k' = k then some v else cacheGet rest k

/-- Map.set on the association list: update in place, else append. -/
def cacheSet : EmbCache → String → List ℚ → EmbCache
  | [], k, v => [(k, v)]
  | (k', v') :: rest, k, v =>
    if k' = k then (k, v) :: rest else (k', v') :: cacheSet rest k v

/-- The semantic signal of performSearch (lines 217-218): the cosine
similarity of the query embedding and the item's cached embedding, or 0 when
the item has no cached embedding.  The numeric cosine itself is a parameter
(on the real numbers it is cosineSimilarity below). -/
def semanticScoreOf (cosSim : List ℚ → List ℚ → ℚ) (queryEmbedding : List ℚ)
    (productEmbeddings : EmbCache) (product : Product) : ℚ :=
  match cacheGet productEmbeddings product._id with
  | some embedding => cosSim queryEmbedding embedding
  | none => 0

/-! ## Scoring one candidate (performSearch, lines 216-341) -/

/-- Models the query composition of performSearch (lines 187-193); the
guards are JavaScript truthiness tests on the strings. -/
def buildCombinedQueryText (analysis : FurnitureAnalysis)
    (visionDescription : String) (queryText : Option String) : String :=
  String.intercalate ". " (List.filterMap id
    [analysis.type.bind (fun t => if t = "" then none else some ("furniture type: " ++ t)),
     analysis.category.bind (fun c => if c = "" then none else some ("category: " ++ c)),
     if visionDescription = "" then none else some visionDescription,
     queryText.bind (fun q => if q = "" then none else some ("user preferences: " ++ q))])

/-- Models the body of the candidates.map of performSearch (lines 216-341):
the four signals, the fixed 0.25 type/category combination weight, the
composite score and the explanation trace (price recorded only when the
price weight is positive). -/
def scoreProduct (cosSim : List ℚ → List ℚ → ℚ) (queryEmbedding : List ℚ)
    (productEmbeddings : EmbCache) (analysis : FurnitureAnalysis)
    (combinedQueryText : String) (targetPrice : Option ℚ)
    (products : List Product) (config : SearchConfig) (product : Product) : ScoredProduct :=
  let semanticScore := semanticScoreOf cosSim queryEmbedding productEmbeddings product
  let productText := lowerStr (String.intercalate " "
    [product.title, product.category, product.type, product.description])
  let queryTextLower := lowerStr combinedQueryText
  let typeMS := typeMatchScore analysis.type product
  let categoryMS := categoryMatchScore analysis.category product
  let lexicalScore := computeLexicalScore queryTextLower productText
  let priceScore := priceScoreOf config targetPrice products product
  let typeCategoryScore := typeMS * (6/10) + categoryMS * (4/10)
  let score := config.imageWeight * semanticScore + (1/4) * typeCategoryScore +
    config.textWeight * lexicalScore + config.priceProximityWeight * priceScore
  { product := product, score := score,
    explanation :=
      [("typeMatch", typeMS), ("categoryMatch", categoryMS),
       ("semantic", semanticScore), ("lexical", lexicalScore)] ++
      (if 0 < config.priceProximityWeight then [("price", priceScore)] else []) }

/-! ## Candidate selection, ranking (performSearch, lines 195-351) -/

/-- Models the optional price range filter (lines 197-202). -/
def priceFiltered (config : SearchConfig) (catalog : List Product) : List Product :=
  match config.priceRangeEnabled, config.priceRangeMin, config.priceRangeMax with
  | true, some lo, some hi => catalog.filter (fun p => decide (lo ≤ p.price ∧ p.price ≤ hi))
  | _, _, _ => catalog

/-- Insert a scored candidate into a list sorted by descending score: it goes
after every element whose score is strictly larger and before the rest, which
combined with the fold below reproduces the stable descending order of the
source's sort((a, b) => b.score - a.score). -/
def insertDesc (a : ScoredProduct) : List ScoredProduct → List ScoredProduct
  | [] => [a]
  | b :: rest => if a.score < b.score then b :: insertDesc a rest else a :: b :: rest

/-- Stable sort by descending composite score (line 346). -/
def sortByScoreDesc (l : List ScoredProduct) : List ScoredProduct :=
  l.foldr insertDesc []

/-- The scored candidate list of performSearch: the positional candidate cap
over the (optionally filtered) catalog (lines 195-204), then one score per
candidate (lines 216-341). -/
def scoredCandidates (cosSim : List ℚ → List ℚ → ℚ) (queryEmbedding : List ℚ)
    (productEmbeddings : EmbCache) (analysis : FurnitureAnalysis)
    (queryText : Option String) (visionDescription : String)
    (config : SearchConfig) (catalog : List Product) : List ScoredProduct :=
  let products := priceFiltered config catalog
  let candidates := products.take config.maxCandidates
  candidates.map (scoreProduct cosSim queryEmbedding productEmbeddings analysis
    (buildCombinedQueryText analysis visionDescription queryText)
    (extractTargetPrice queryText) products config)

/-- The ranked output of performSearch (lines 343-350): filter by minScore,
sort by descending score, truncate to topK. -/
def searchCore (cosSim : List ℚ → List ℚ → ℚ) (queryEmbedding : List ℚ)
    (productEmbeddings : EmbCache) (analysis : FurnitureAnalysis)
    (queryText : Option String) (visionDescription : String)
    (config : SearchConfig) (catalog : List Product) : List ScoredProduct :=
  (sortByScoreDesc
    ((scoredCandidates cosSim queryEmbedding productEmbeddings analysis queryText
        visionDescription config catalog).filter
      (fun s => decide (config.minScore ≤ s.score)))).take config.topK

/-! ## getProductEmbeddings (embeddingCache.ts, lines 396-472) -/

/-- A provider embedding client: models client.createEmbeddings.  An
Except.error is a thrown exception. -/
abbrev EmbedOracle := List String → Except String (List (List ℚ))

/-- The embedding text of one product (lines 420-429): the four text fields
with empty ones removed, joined by a separator. -/
def joinedText (p : Product) : String :=
  String.intercalate " | "
    (([p.title, p.category, p.type, p.description]).filter (fun s => decide (s ≠ "")))

/-- The members of a batch whose embedding text survives the validity filter
(lines 432-439): those whose trimmed joined text is non-empty. -/
def validOf (batch : List Product) : List Product :=
  batch.filter (fun p => decide (trimStr (joinedText p) ≠ ""))

/-- The error translation of the catch block (lines 446-454). -/
def translateEmbedError (provider : AIProvider) (msg : String) : String :=
  let name := match provider with
    | AIProvider.openai => "openai"
    | AIProvider.anthropic => "anthropic"
    | AIProvider.google => "google"
  if strIncludes msg "Invalid" && strIncludes msg "API key" then
    "Invalid " ++ name ++ " API key. Please check your API key and try again."
  else if strIncludes msg "rate limit" then
    name ++ " API rate limit exceeded. Please wait a moment and try again."
  else msg

/-- The outcome of running the batch loop against the mutable module-level
cache: the cache state on return, and on failure the cache state at the
moment the exception escaped, together with the number of provider calls
issued. -/
inductive EmbRun where
  | ok (cache : EmbCache) (calls : Nat)
  | fail (err : String) (cache : EmbCache) (calls : Nat)
deriving DecidableEq

/-- The cache state an EmbRun leaves behind. -/
def EmbRun.cacheOut : EmbRun → EmbCache
  | .ok c _ => c
  | .fail _ c _ => c

/-- One more provider call on a finished run: the call the current batch
just made. -/
def bump : EmbRun → EmbRun
  | .ok c n => .ok c (n + 1)
  | .fail e c n => .fail e c (n + 1)

/-- The write-back of one batch (the embeddings.forEach of lines 456-467):
each returned embedding is stored under the matching valid product's
identifier; zip drops extra returned rows, and a short response leaves the
unpaired products uncached. -/
def writeBack (pairs : List (Product × List ℚ)) (cache : EmbCache) : EmbCache :=
  pairs.foldl (fun c pe => cacheSet c pe.1._id pe.2) cache

/-- The list cut into consecutive slices of n (the for loop stepping i by
BATCH_SIZE over missingProducts, slicing [i, i+BATCH_SIZE)). -/
def chunksOf (n : Nat) (l : List α) : List (List α) :=
  if l.isEmpty ∨ n = 0 then [] else l.take n :: chunksOf n (l.drop n)
termination_by l.length
decreasing_by
  rename_i h
  rw [not_or] at h
  obtain ⟨h1, h2⟩ := h
  have hl : 0 < l.length := by
    cases l
    · simp at h1
    · simp
  simp only [List.length_drop]
  omega

/-- The body of the batch loop (lines 417-468): per batch, the validity
filter, one provider call when anything is valid, the write-back of the
returned embeddings zipped against the valid products (extra returned rows
are dropped, missing ones leave their products uncached), and on a thrown
error the translated message with no further writes. -/
def processBatches (provider : AIProvider) (embed : EmbedOracle) :
    List (List Product) → EmbCache → EmbRun
  | [], cache => .ok cache 0
  | batch :: rest, cache =>
    let valid := validOf batch
    if valid.isEmpty then processBatches provider embed rest cache
    else
      match embed (valid.map joinedText) with
      | Except.error e => .fail (translateEmbedError provider e) cache 1
      | Except.ok embs =>
        bump (processBatches provider embed rest (writeBack (valid.zip embs) cache))

/-- The products not yet cached (lines 408-410). -/
def missingOf (products : List Product) (cache : EmbCache) : List Product :=
  products.filter (fun p => (cacheGet cache p._id).isNone)

/-- Models getProductEmbeddings: the missing products are processed in
batches of 100; on success the WHOLE cache map is returned (line 471), not a
restriction to the requested products. -/
def getProductEmbeddings (provider : AIProvider) (embed : EmbedOracle)
    (products : List Product) (cache : EmbCache) : EmbRun :=
  processBatches provider embed (chunksOf 100 (missingOf products cache)) cache

/-- Ceiling division, for the spec's ceil(N/B). -/
def ceilDiv (a b : Nat) : Nat := (a + b - 1) / b

/-! ## cosineSimilarity (embeddingCache.ts, lines 504-522), over the reals -/

/-- The dot product over the overlapping prefix of two vectors (zipWith
truncates at the shorter vector, as the loop over minLength does). -/
def dotPrefix (a b : List ℝ) : ℝ := (List.zipWith (fun x y => x * y) a b).sum

/-- The sum of squares of the first vector over the overlapping prefix of
the two vectors (normA resp. normB of the source's loop). -/
def normPrefix (a b : List ℝ) : ℝ :=
  ((a.take (min a.length b.length)).map (fun x => x * x)).sum

/-- The magnitude of the first vector over the overlapping prefix: the
square root of the sum of squares. -/
noncomputable def magnitudePrefix (a b : List ℝ) : ℝ := Real.sqrt (normPrefix a b)

section
open Classical

/-- Models cosineSimilarity of embeddingCache.ts: 0 when the overlap is
empty, 0 when either accumulated norm is zero (the falsiness tests on normA
and normB), else the dot product over the overlap divided by the product of
the square roots of the norms. -/
noncomputable def cosineSimilarity (a b : List ℝ) : ℝ :=
  let minLength := min a.length b.length
  if minLength = 0 then 0
  else
    let dot := (List.zipWith (fun x y => x * y) a b).sum
    let normA := ((a.take minLength).map (fun x => x * x)).sum
    let normB := ((b.take minLength).map (fun x => x * x)).sum
    if normA = 0 ∨ normB = 0 then 0
    else dot / (Real.sqrt normA * Real.sqrt normB)

end

/-! ## Spec-side definitions for the typeMatch ladder (claim C2) -/

/-- The typeMatch ladder exactly as the specification words it: exact
equality of the type fields, then a substring match either direction in the
type field, then the query type found in title or description, then the
synonym table (where alone the spec mentions stripping a trailing s), else
0.  Field normalization (lowercase, trim) follows the code, since the spec
does not dispute it. -/
def typeMatchLadderSpec (queryTypeRaw : String) (product : Product) : ℚ :=
  let queryType := trimStr (lowerStr queryTypeRaw)
  let productType := trimStr (lowerStr product.type)
  let productTitle := lowerStr product.title
  let productDesc := lowerStr product.description
  if productType = queryType then 1
  else if strIncludes productType queryType ∨ strIncludes queryType productType then 8/10
  else if strIncludes productTitle queryType ∨ strIncludes productDesc queryType then 6/10
  else
    let similar := ((similarTypes queryType).orElse
      (fun _ => similarTypes (stripS queryType))).getD []
    if similar.any (fun t =>
         let tSingular := stripS t
         strIncludes productType t || strIncludes productType tSingular ||
         strIncludes productTitle t || strIncludes productTitle tSingular ||
         strIncludes productDesc t || strIncludes productDesc tSingular) then 4/10
    else 0

/-- The amended ladder, worded from the code: every rung above the synonym
one also accepts the singular forms (one trailing s stripped) of the
compared fields — rung one is equality up to one side's singular form, rung
two substring containment against the query type or its singular, rung
three the query type or its singular in title or description. -/
def typeMatchLadderAmended (queryTypeRaw : String) (product : Product) : ℚ :=
  if queryTypeRaw = "" then 0
  else
    let queryType := trimStr (lowerStr queryTypeRaw)
    let queryTypeSingular := stripS queryType
    let productType := trimStr (lowerStr product.type)
    let productTypeSingular := stripS productType
    let productTitle := lowerStr product.title
    let productDesc := lowerStr product.description
    if productType = queryType ∨ productTypeSingular = queryType ∨
       productType = queryTypeSingular then 1
    else if strIncludes productType queryType ∨ strIncludes queryType productType ∨
            strIncludes productType queryTypeSingular ∨
            strIncludes queryTypeSingular productType then 8/10
    else if strIncludes productTitle queryType ∨ strIncludes productTitle queryTypeSingular ∨
            strIncludes productDesc queryType ∨ strIncludes productDesc queryTypeSingular then 6/10
    else
      let similar := ((similarTypes queryType).orElse
        (fun _ => similarTypes queryTypeSingular)).getD []
      if similar.any (fun t =>
           let tSingular := stripS t
           strIncludes productType t || strIncludes productType tSingular ||
           strIncludes productTitle t || strIncludes productTitle tSingular ||
           strIncludes productDesc t || strIncludes productDesc tSingular) then 4/10
      else 0

/-! ## Concrete fixtures -/

/-- A product with the given identifier and price and no text. -/
def prodP (id : String) (price : ℚ) : Product :=
  { _id := id, title := "", description := "", category := "", type := "",
    price := price, width := 0, height := 0, depth := 0 }

/-- A catalog item whose type field is the plural "chairs". -/
def chairsProduct : Product :=
  { _id := "p-chairs", title := "t", description := "d", category := "c",
    type := "chairs", price := 0, width := 0, height := 0, depth := 0 }

/-- A catalog item whose type field is "stool" and whose title and
description do not mention benches. -/
def stoolProduct : Product :=
  { _id := "p-stool", title := "t", description := "d", category := "c",
    type := "stool", price := 0, width := 0, height := 0, depth := 0 }

/-- A configuration that selects Anthropic for both vision and embeddings. -/
def cfgAnthropicEmb : SearchConfig :=
  { defaultConfig with
    aiProvider := some AIProvider.anthropic,
    embeddingProvider := some AIProvider.anthropic }

/-- The trivial cosine oracle used by concrete runs. -/
def cos0 : List ℚ → List ℚ → ℚ := fun _ _ => 0

/-- An analysis with no structured fields. -/
def analysisEmpty : FurnitureAnalysis :=
  { isFurniture := true, category := none, type := none, description := "" }

/-- The default configuration with the price weight switched off. -/
def cfgNoPriceWeight : SearchConfig := { defaultConfig with priceProximityWeight := 0 }

/-- A blank product. -/
def blankProduct : Product := prodP "p0" 0

/-! ## Claim C1 -/

/-- C1, counterexample: with the embedding provider configured as anthropic,
performSearch does not keep anthropic as the embedding backend — lines 48-51
replace it by openai before any embedding call, so the
UnsupportedCapabilityError of the Anthropic variant is never reached, and a
different backend IS substituted on the caller's behalf. -/
theorem C1_counterexample :
    cfgAnthropicEmb.embeddingProvider = some AIProvider.anthropic ∧
    resolveEmbeddingProvider cfgAnthropicEmb = AIProvider.openai ∧
    ¬ resolveEmbeddingProvider cfgAnthropicEmb = AIProvider.anthropic := by
  decide

/-- C1, amended: the Anthropic variant's createEmbeddings does fail
immediately with the unsupported-capability error, but performSearch never
issues an embedding call through anthropic: it silently resolves the
embedding backend to openai (or google), so that error is not propagated
from performSearch. -/
theorem C1_amended_no_anthropic_embeddings :
    (∀ texts, anthropicCreateEmbeddings texts = Except.error unsupportedCapabilityMessage) ∧
    (∀ config : SearchConfig, resolveEmbeddingProvider config = AIProvider.openai ∨
      resolveEmbeddingProvider config = AIProvider.google) := by
  constructor
  · intro texts; rfl
  · intro config
    cases h : config.embeddingProvider.getD (config.aiProvider.getD AIProvider.openai) <;>
      simp [resolveEmbeddingProvider, h]

/-! ## Claim C2 -/

/-- C2, counterexample: query type "chair" against product type "chairs".
The specified ladder stops at the substring rung (0.8) because the type
fields are not exactly equal, but the code also accepts equality after
stripping a trailing s in its first rung and yields 1.0. -/
theorem C2_counterexample :
    typeMatchScore (some "chair") chairsProduct = 1 ∧
    typeMatchLadderSpec "chair" chairsProduct = 8/10 ∧
    ¬ ((1 : ℚ) = 8/10) := by
  refine ⟨rfl, rfl, by norm_num⟩

/-- C2, amended: the typeMatch signal follows the ladder with singular forms
accepted at every rung above the synonym one — exact equality up to one
trailing s gives 1.0, substring containment against the query type or its
singular gives 0.8, the query type or its singular in title or description
gives 0.6, the synonym table gives 0.4, else 0.0 — and an absent query type
gives 0; the bench-versus-stool example still yields 0.4. -/
theorem C2_typeMatch_ladder_amended :
    (∀ ty product, typeMatchScore (some ty) product = typeMatchLadderAmended ty product) ∧
    (∀ product, typeMatchScore none product = 0) ∧
    typeMatchScore (some "bench") stoolProduct = 4/10 := by
  refine ⟨fun ty product => rfl, fun product => rfl, rfl⟩

/-! ## Claim C4 -/

/-- C4, counterexample: with the caller-configured price weight set to 0,
the explanation trace omits the price sub-score — it records only the other
four names — so the trace is not independent of the configured weights. -/
theorem C4_counterexample :
    ((scoreProduct cos0 [] [] analysisEmpty "" none [] cfgNoPriceWeight
        blankProduct).explanation.map Prod.fst
      = ["typeMatch", "categoryMatch", "semantic", "lexical"]) ∧
    ¬ ("price" ∈ (scoreProduct cos0 [] [] analysisEmpty "" none [] cfgNoPriceWeight
        blankProduct).explanation.map Prod.fst) := by
  decide

/-- C4, amended: the explanation trace always records typeMatch,
categoryMatch, semantic and lexical by name, whatever the weights; the price
sub-score is recorded exactly when the caller-configured price proximity
weight is positive. -/
theorem C4_explanation_names_amended :
    ∀ cosSim qe pe analysis cqt tp pool config product,
      ((scoreProduct cosSim qe pe analysis cqt tp pool config product).explanation.map Prod.fst)
        = if 0 < config.priceProximityWeight
          then ["typeMatch", "categoryMatch", "semantic", "lexical", "price"]
          else ["typeMatch", "categoryMatch", "semantic", "lexical"] := by
  intro cosSim qe pe analysis cqt tp pool config product
  by_cases h : 0 < config.priceProximityWeight <;> simp [scoreProduct, h]

/-! ## Claim C3 -/

/-- A configuration whose candidate cap is smaller than the catalog, with
only the price signal weighted. -/
def cfgPrice3 : SearchConfig :=
  { maxCandidates := 2, topK := 20, minScore := 0, imageWeight := 0, textWeight := 0,
    priceProximityWeight := 1/5, priceRangeEnabled := false, priceRangeMin := none,
    priceRangeMax := none, aiProvider := none, embeddingProvider := none }

/-- A three-item catalog with prices 10, 10 and 40: the candidate set (the
first two) has mean price 10, the full catalog mean price 20. -/
def catalog3 : List Product := [prodP "a" 10, prodP "b" 10, prodP "c" 40]

/-- C3, counterexample: with no target price, maxCandidates = 2 and catalog
prices 10, 10, 40, the code scores both candidates' price signal against the
FULL catalog's mean 20, giving 1 - min(10/20, 1/2) = 1/2, while the claim's
formula over the candidate set's mean 10 gives 1 - min(0/10, 1/2) = 1. -/
theorem C3_counterexample :
    ((scoredCandidates cos0 [] [] analysisEmpty none "" cfgPrice3 catalog3).map
        (fun s => s.explanation.lookup "price")
      = [some (1/2), some (1/2)]) ∧
    meanPrice ((priceFiltered cfgPrice3 catalog3).take cfgPrice3.maxCandidates) = 10 ∧
    ((1 : ℚ) - min (|(prodP "a" 10).price - 10| / 10) (1/2) = 1) ∧
    ¬ ((1/2 : ℚ) = 1) := by
  refine ⟨?_, ?_, ?_, by norm_num⟩
  · norm_num [scoredCandidates, priceFiltered, scoreProduct, priceScoreOf, meanPrice,
      catalog3, cfgPrice3, prodP, analysisEmpty, extractTargetPrice, typeMatchScore,
      categoryMatchScore, computeLexicalScore, semanticScoreOf, cacheGet, cos0,
      buildCombinedQueryText, tokenize, lowerStr, splitWsAux, List.lookup]
    rfl
  · norm_num [meanPrice, priceFiltered, catalog3, cfgPrice3, prodP]
  · norm_num [prodP]

/-- C3, amended: the two formulas hold as claimed except that the mean of
the no-target branch is taken over the full (optionally price-range
filtered) catalog — the list the scorer receives as its pool — not over the
candidate set; the pipeline passes that full filtered catalog as the pool
while mapping only over the first maxCandidates items. -/
theorem C3_price_signal_amended :
    (∀ (config : SearchConfig) (qt : Option String) (pool : List Product)
       (product : Product) (t : ℚ),
      0 < config.priceProximityWeight →
      extractTargetPrice qt = some t →
      0 < max product.price t →
      priceScoreOf config (extractTargetPrice qt) pool product
        = 1 - min (|product.price - t| / max product.price t) 1) ∧
    (∀ (config : SearchConfig) (qt : Option String) (pool : List Product)
       (product : Product),
      0 < config.priceProximityWeight →
      extractTargetPrice qt = none →
      0 < meanPrice pool →
      priceScoreOf config (extractTargetPrice qt) pool product
        = 1 - min (|product.price - meanPrice pool| / meanPrice pool) (1/2)) ∧
    (∀ cosSim qe pe analysis qt vd config catalog,
      scoredCandidates cosSim qe pe analysis qt vd config catalog
        = ((priceFiltered config catalog).take config.maxCandidates).map
            (scoreProduct cosSim qe pe analysis (buildCombinedQueryText analysis vd qt)
              (extractTargetPrice qt) (priceFiltered config catalog) config)) := by
  refine ⟨?_, ?_, fun _ _ _ _ _ _ _ _ => rfl⟩
  · intro config qt pool product t hw ht hmax
    rw [ht] at *
    simp only [priceScoreOf, if_pos hw, if_pos hmax]
  · intro config qt pool product hw ht hmean
    rw [ht] at *
    simp only [priceScoreOf, if_pos hw, if_pos hmean]

/-- A product priced at 30, for the price-signal witness. -/
def priceProduct30 : Product := prodP "w" 30

/-- Witness for C3: at the concrete query text containing a currency amount
of 50 the target branch gives 3/5 for a price of 30, and with no query text
against a pool whose mean is 20 the mean branch gives 1/2. -/
theorem C3_price_witness :
    priceScoreOf cfgPrice3 (extractTargetPrice (some "$50")) [] priceProduct30 = 3/5 ∧
    priceScoreOf cfgPrice3 (extractTargetPrice none) [prodP "m" 20] priceProduct30 = 1/2 := by
  constructor
  · have hx : extractTargetPrice (some "$50") = some ((50 : ℕ) : ℚ) := rfl
    have h := C3_price_signal_amended.1 cfgPrice3 (some "$50") [] priceProduct30
      ((50 : ℕ) : ℚ) (by norm_num [cfgPrice3]) hx (by norm_num [priceProduct30, prodP])
    rw [h]
    norm_num [priceProduct30, prodP, max_def, min_def, abs_sub_comm]
  · have h := C3_price_signal_amended.2.1 cfgPrice3 none [prodP "m" 20] priceProduct30
      (by norm_num [cfgPrice3]) rfl (by norm_num [meanPrice, prodP])
    rw [h]
    norm_num [priceProduct30, meanPrice, prodP, min_def]

/-! ## Claim C5 -/

/-- The elementwise product of a list with itself is the list of squares. -/
lemma zipWith_mul_self (a : List ℝ) :
    List.zipWith (fun x y => x * y) a a = a.map (fun x => x * x) := by
  induction a with
  | nil => rfl
  | cons x xs ih => simp [ih]

/-- A sum of squares is nonnegative. -/
lemma sum_sq_nonneg (a : List ℝ) : 0 ≤ (a.map (fun x => x * x)).sum := by
  induction a with
  | nil => simp
  | cons x xs ih =>
    simp only [List.map_cons, List.sum_cons]
    exact add_nonneg (mul_self_nonneg x) ih

/-- A sum of squares with one nonzero contributor is positive. -/
lemma sum_sq_pos {a : List ℝ} {x : ℝ} (hx : x ∈ a) (hx0 : x ≠ 0) :
    0 < (a.map (fun y => y * y)).sum := by
  induction a with
  | nil => cases hx
  | cons y ys ih =>
    simp only [List.map_cons, List.sum_cons]
    rcases List.mem_cons.mp hx with h | h
    · subst h
      exact add_pos_of_pos_of_nonneg (mul_self_pos.mpr hx0) (sum_sq_nonneg ys)
    · exact add_pos_of_nonneg_of_pos (mul_self_nonneg y) (ih h)

/-- normPrefix of the second vector, written over the same overlap. -/
lemma normPrefix_comm_len (a b : List ℝ) :
    normPrefix b a = ((b.take (min a.length b.length)).map (fun x => x * x)).sum := by
  rw [normPrefix, Nat.min_comm]

/-- cosineSimilarity when the overlap is empty. -/
lemma cosineSimilarity_of_min_eq_zero {a b : List ℝ}
    (h : min a.length b.length = 0) : cosineSimilarity a b = 0 := by
  simp only [cosineSimilarity]
  rw [if_pos h]

/-- cosineSimilarity when either norm over the overlap vanishes. -/
lemma cosineSimilarity_of_norm_eq_zero {a b : List ℝ}
    (h : normPrefix a b = 0 ∨ normPrefix b a = 0) : cosineSimilarity a b = 0 := by
  by_cases hm : min a.length b.length = 0
  · exact cosineSimilarity_of_min_eq_zero hm
  · have h' : ((a.take (min a.length b.length)).map (fun x => x * x)).sum = 0 ∨
        ((b.take (min a.length b.length)).map (fun x => x * x)).sum = 0 := by
      rcases h with h | h
      · exact Or.inl h
      · right
        rw [normPrefix_comm_len a b] at h
        exact h
    simp only [cosineSimilarity]
    rw [if_neg hm, if_pos h']

/-- cosineSimilarity in the main case. -/
lemma cosineSimilarity_of_ne {a b : List ℝ} (h1 : min a.length b.length ≠ 0)
    (h2 : normPrefix a b ≠ 0) (h3 : normPrefix b a ≠ 0) :
    cosineSimilarity a b
      = dotPrefix a b / (Real.sqrt (normPrefix a b) * Real.sqrt (normPrefix b a)) := by
  have h3' : ((b.take (min a.length b.length)).map (fun x => x * x)).sum ≠ 0 := by
    rw [← normPrefix_comm_len a b]
    exact h3
  simp only [cosineSimilarity]
  rw [if_neg h1, if_neg (by rw [not_or]; exact ⟨h2, h3'⟩)]
  simp only [dotPrefix, normPrefix]
  rw [Nat.min_comm b.length a.length]

/-- C5: cosineSimilarity returns 0 on an empty overlap, returns 0 when
either vector has zero magnitude over the overlap, otherwise equals the dot
product over the overlapping prefix divided by the product of the two
magnitudes over that prefix; the orthogonal pair [1,0], [0,1] yields 0; and
any vector with a nonzero entry has similarity 1 with itself. -/
theorem C5_cosineSimilarity_spec :
    (∀ a b : List ℝ, min a.length b.length = 0 → cosineSimilarity a b = 0) ∧
    (∀ a b : List ℝ, normPrefix a b = 0 ∨ normPrefix b a = 0 → cosineSimilarity a b = 0) ∧
    (∀ a b : List ℝ, min a.length b.length ≠ 0 → normPrefix a b ≠ 0 → normPrefix b a ≠ 0 →
      cosineSimilarity a b = dotPrefix a b / (magnitudePrefix a b * magnitudePrefix b a)) ∧
    cosineSimilarity [1, 0] [0, 1] = 0 ∧
    (∀ a : List ℝ, (∃ x ∈ a, x ≠ 0) → cosineSimilarity a a = 1) := by
  refine ⟨fun a b h => cosineSimilarity_of_min_eq_zero h,
    fun a b h => cosineSimilarity_of_norm_eq_zero h,
    fun a b h1 h2 h3 => by
      simp only [magnitudePrefix]
      exact cosineSimilarity_of_ne h1 h2 h3, ?_, ?_⟩
  · rw [cosineSimilarity_of_ne (by norm_num) (by norm_num [normPrefix])
      (by norm_num [normPrefix])]
    norm_num [dotPrefix]
  · intro a ha
    obtain ⟨x, hx, hx0⟩ := ha
    have hne : a ≠ [] := List.ne_nil_of_mem hx
    have hS : 0 < (a.map (fun y => y * y)).sum := sum_sq_pos hx hx0
    have hnp : normPrefix a a = (a.map (fun y => y * y)).sum := by
      simp [normPrefix]
    have hdp : dotPrefix a a = (a.map (fun y => y * y)).sum := by
      rw [dotPrefix, zipWith_mul_self a]
    have hmin : min a.length a.length ≠ 0 := by
      simp only [Nat.min_self]
      exact fun h => hne (List.eq_nil_of_length_eq_zero h)
    have hnp2 : normPrefix a a ≠ 0 := by rw [hnp]; exact hS.ne'
    rw [cosineSimilarity_of_ne hmin hnp2 hnp2, hnp, hdp, Real.mul_self_sqrt hS.le]
    exact div_self hS.ne'

/-- Witness for C5: each case of the specification at a concrete vector
pair. -/
theorem C5_witness :
    cosineSimilarity ([] : List ℝ) [1] = 0 ∧
    cosineSimilarity [0] [1] = 0 ∧
    cosineSimilarity [1] [2]
      = dotPrefix [1] [2] / (magnitudePrefix [1] [2] * magnitudePrefix [2] [1]) ∧
    cosineSimilarity [3, 4] [3, 4] = 1 := by
  refine ⟨C5_cosineSimilarity_spec.1 [] [1] (by norm_num),
    C5_cosineSimilarity_spec.2.1 [0] [1] (Or.inl (by norm_num [normPrefix])),
    C5_cosineSimilarity_spec.2.2.1 [1] [2] (by norm_num) (by norm_num [normPrefix])
      (by norm_num [normPrefix]),
    C5_cosineSimilarity_spec.2.2.2.2 [3, 4] ⟨3, by norm_num, by norm_num⟩⟩

/-! ## Claims C8 and C9: the ranker -/

/-- Membership in an insertion. -/
lemma mem_insertDesc {x a : ScoredProduct} {l : List ScoredProduct} :
    x ∈ insertDesc a l ↔ x = a ∨ x ∈ l := by
  induction l with
  | nil => simp [insertDesc]
  | cons b rest ih =>
    by_cases hc : a.score < b.score <;> simp [insertDesc, hc, ih] <;> tauto

/-- Insertion preserves the descending order. -/
lemma pairwise_insertDesc {a : ScoredProduct} {l : List ScoredProduct}
    (h : l.Pairwise (fun x y => y.score ≤ x.score)) :
    (insertDesc a l).Pairwise (fun x y => y.score ≤ x.score) := by
  induction l with
  | nil => simp [insertDesc]
  | cons b rest ih =>
    rw [List.pairwise_cons] at h
    obtain ⟨hb, hrest⟩ := h
    by_cases hc : a.score < b.score
    · simp only [insertDesc, if_pos hc]
      rw [List.pairwise_cons]
      refine ⟨?_, ih hrest⟩
      intro y hy
      rcases mem_insertDesc.mp hy with rfl | hy'
      · exact le_of_lt hc
      · exact hb y hy'
    · simp only [insertDesc, if_neg hc]
      push_neg at hc
      rw [List.pairwise_cons]
      refine ⟨?_, List.pairwise_cons.mpr ⟨hb, hrest⟩⟩
      intro y hy
      rcases List.mem_cons.mp hy with rfl | hy'
      · exact hc
      · exact le_trans (hb y hy') hc

/-- The sort is sorted by descending score. -/
lemma pairwise_sortByScoreDesc (l : List ScoredProduct) :
    (sortByScoreDesc l).Pairwise (fun x y => y.score ≤ x.score) := by
  induction l with
  | nil => simp [sortByScoreDesc]
  | cons x xs ih => exact pairwise_insertDesc ih

/-- The sort neither adds nor removes elements. -/
lemma mem_sortByScoreDesc {x : ScoredProduct} {l : List ScoredProduct} :
    x ∈ sortByScoreDesc l ↔ x ∈ l := by
  induction l with
  | nil => exact Iff.rfl
  | cons y ys ih =>
    show x ∈ insertDesc y (sortByScoreDesc ys) ↔ _
    rw [mem_insertDesc, ih, List.mem_cons]

/-- C8: the ranked output never exceeds topK items, never contains an item
whose composite score is below minScore, is sorted in descending order of
composite score, and is empty (not an error) when every scored candidate
falls below minScore. -/
theorem C8_ranker_output_bounds :
    ∀ cosSim qe pe analysis qt vd config catalog,
      (searchCore cosSim qe pe analysis qt vd config catalog).length ≤ config.topK ∧
      (∀ r ∈ searchCore cosSim qe pe analysis qt vd config catalog,
        config.minScore ≤ r.score) ∧
      (searchCore cosSim qe pe analysis qt vd config catalog).Pairwise
        (fun x y => y.score ≤ x.score) ∧
      ((∀ s ∈ scoredCandidates cosSim qe pe analysis qt vd config catalog,
          s.score < config.minScore) →
        searchCore cosSim qe pe analysis qt vd config catalog = []) := by
  intro cosSim qe pe analysis qt vd config catalog
  refine ⟨?_, ?_, ?_, ?_⟩
  · show (List.take _ _).length ≤ _
    rw [List.length_take]
    exact min_le_left _ _
  · intro r hr
    have hr' : r ∈ sortByScoreDesc _ := List.mem_of_mem_take hr
    rw [mem_sortByScoreDesc] at hr'
    have h2 := (List.mem_filter.mp hr').2
    exact of_decide_eq_true h2
  · exact List.Pairwise.sublist (List.take_sublist _ _) (pairwise_sortByScoreDesc _)
  · intro h
    have hnil : (scoredCandidates cosSim qe pe analysis qt vd config catalog).filter
        (fun s => decide (config.minScore ≤ s.score)) = [] := by
      rw [List.filter_eq_nil]
      intro s hs
      simp only [decide_eq_true_eq]
      exact not_le.mpr (h s hs)
    show (sortByScoreDesc _).take _ = _
    rw [hnil]
    simp [sortByScoreDesc]

/-- The default configuration with minScore one half and every
caller-configured weight zero. -/
def cfgMinHalf : SearchConfig :=
  { cfgPrice3 with minScore := 1/2, priceProximityWeight := 0 }

/-- Witness for C8: one blank candidate whose composite score 0 falls below
minScore = 1/2, so the ranked output is the empty list. -/
theorem C8_witness :
    searchCore cos0 [] [] analysisEmpty none "" cfgMinHalf [blankProduct] = [] := by
  apply (C8_ranker_output_bounds cos0 [] [] analysisEmpty none "" cfgMinHalf
    [blankProduct]).2.2.2
  intro s hs
  norm_num [scoredCandidates, priceFiltered, scoreProduct, priceScoreOf, semanticScoreOf,
    cacheGet, typeMatchScore, categoryMatchScore, computeLexicalScore, cos0,
    buildCombinedQueryText, extractTargetPrice, tokenize, lowerStr, splitWsAux,
    cfgMinHalf, cfgPrice3, blankProduct, prodP, analysisEmpty] at hs ⊢
  rw [hs]
  norm_num

/-- C9: the candidate set is exactly the first maxCandidates items of the
(optionally price-range-filtered) catalog, so exactly min(maxCandidates,
filtered length) items are scored — with a 250-item catalog, no price
filter and maxCandidates = 200, exactly 200 — and every ranked result's
product comes from that positional slice. -/
theorem C9_candidate_cap :
    ∀ cosSim qe pe analysis qt vd config catalog,
      (scoredCandidates cosSim qe pe analysis qt vd config catalog).length
        = min config.maxCandidates (priceFiltered config catalog).length ∧
      (config.priceRangeEnabled = false → catalog.length = 250 →
        config.maxCandidates = 200 →
        (scoredCandidates cosSim qe pe analysis qt vd config catalog).length = 200) ∧
      (∀ r ∈ searchCore cosSim qe pe analysis qt vd config catalog,
        r.product ∈ (priceFiltered config catalog).take config.maxCandidates) := by
  intro cosSim qe pe analysis qt vd config catalog
  have hlen : (scoredCandidates cosSim qe pe analysis qt vd config catalog).length
      = min config.maxCandidates (priceFiltered config catalog).length := by
    simp [scoredCandidates]
  refine ⟨hlen, ?_, ?_⟩
  · intro he h250 h200
    have hpf : priceFiltered config catalog = catalog := by
      simp [priceFiltered, he]
    rw [hlen, hpf, h250, h200]
    norm_num
  · intro r hr
    have hr' : r ∈ sortByScoreDesc _ := List.mem_of_mem_take hr
    rw [mem_sortByScoreDesc] at hr'
    have h2 := (List.mem_filter.mp hr').1
    simp only [scoredCandidates] at h2
    obtain ⟨p, hp, rfl⟩ := List.mem_map.mp h2
    exact hp

/-- A 250-item catalog of distinct identifiers. -/
def catalog250 : List Product := (List.range 250).map (fun i => prodP (toString i) 1)

/-- Witness for C9: with the 250-item catalog and the default configuration
(maxCandidates = 200, no price filter), exactly 200 items are scored. -/
theorem C9_witness :
    (scoredCandidates cos0 [] [] analysisEmpty none "" defaultConfig catalog250).length
      = 200 :=
  (C9_candidate_cap cos0 [] [] analysisEmpty none "" defaultConfig catalog250).2.1 rfl
    (by simp [catalog250]) rfl

/-! ## Claims C6, C7, C10: the embedding cache machinery -/

/-- chunksOf on the empty list. -/
lemma chunksOf_nil (n : Nat) : chunksOf n ([] : List α) = [] := by
  rw [chunksOf]
  simp

/-- chunksOf on a non-empty list with positive chunk size. -/
lemma chunksOf_cons {l : List α} (h : l ≠ []) {n : Nat} (hn : n ≠ 0) :
    chunksOf n l = l.take n :: chunksOf n (l.drop n) := by
  rw [chunksOf]
  rw [if_neg]
  simp [h, hn]

/-- The chunks concatenate back to the original list. -/
lemma chunksOf_flatten {n : Nat} (hn : n ≠ 0) (l : List α) :
    (chunksOf n l).flatten = l := by
  by_cases h : l = []
  · subst h
    simp [chunksOf_nil]
  · rw [chunksOf_cons h hn]
    simp only [List.flatten_cons]
    rw [chunksOf_flatten hn (l.drop n)]
    exact List.take_append_drop n l
termination_by l.length
decreasing_by
  have : 0 < l.length := List.length_pos.mpr h
  simp only [List.length_drop]
  omega

/-- The number of chunks is the length divided by n, rounded up. -/
lemma chunksOf_length {n : Nat} (hn : n ≠ 0) (l : List α) :
    (chunksOf n l).length = (l.length + n - 1) / n := by
  by_cases h : l = []
  · subst h
    simp only [chunksOf_nil, List.length_nil]
    exact (Nat.div_eq_of_lt (by omega)).symm
  · rw [chunksOf_cons h hn]
    simp only [List.length_cons]
    rw [chunksOf_length hn (l.drop n)]
    simp only [List.length_drop]
    have hl : 0 < l.length := List.length_pos.mpr h
    rcases le_or_lt n l.length with hle | hlt
    · have e1 : l.length - n + n - 1 = l.length - 1 := by omega
      have e2 : l.length + n - 1 = (l.length - 1) + n := by omega
      rw [e1, e2, Nat.add_div_right _ (Nat.pos_of_ne_zero hn)]
    · have e1 : l.length - n = 0 := by omega
      have e2 : l.length + n - 1 = (l.length - 1) + n := by omega
      rw [e1, e2, Nat.add_div_right _ (Nat.pos_of_ne_zero hn),
        Nat.div_eq_of_lt (show 0 + n - 1 < n by omega),
        Nat.div_eq_of_lt (show l.length - 1 < n by omega)]
termination_by l.length
decreasing_by
  have : 0 < l.length := List.length_pos.mpr h
  simp only [List.length_drop]
  omega

/-- A member of a chunk is a member of the original list. -/
lemma mem_of_mem_chunksOf {n : Nat} (hn : n ≠ 0) {l b : List α} {p : α}
    (hb : b ∈ chunksOf n l) (hp : p ∈ b) : p ∈ l := by
  rw [← chunksOf_flatten hn l]
  exact List.mem_flatten.mpr ⟨b, hb, hp⟩

/-- A member of the original list lies in some chunk. -/
lemma exists_chunk_of_mem {n : Nat} (hn : n ≠ 0) {l : List α} {p : α} (hp : p ∈ l) :
    ∃ b ∈ chunksOf n l, p ∈ b := by
  rw [← chunksOf_flatten hn l] at hp
  exact List.mem_flatten.mp hp

/-- No chunk is empty. -/
lemma ne_nil_of_mem_chunksOf {n : Nat} (hn : n ≠ 0) (l : List α) :
    ∀ {b : List α}, b ∈ chunksOf n l → b ≠ [] := by
  intro b hb
  by_cases h : l = []
  · subst h
    rw [chunksOf_nil] at hb
    cases hb
  · rw [chunksOf_cons h hn] at hb
    rcases List.mem_cons.mp hb with rfl | hb'
    · intro he
      rcases List.take_eq_nil_iff.mp he with h0 | h0
      · exact hn h0
      · exact h h0
    · exact ne_nil_of_mem_chunksOf hn (l.drop n) hb'
termination_by l.length
decreasing_by
  have : 0 < l.length := List.length_pos.mpr h
  simp only [List.length_drop]
  omega

/-- Reading the key just written. -/
lemma cacheGet_cacheSet_self (c : EmbCache) (k : String) (v : List ℚ) :
    cacheGet (cacheSet c k v) k = some v := by
  induction c with
  | nil => simp [cacheSet, cacheGet]
  | cons kv rest ih =>
    obtain ⟨k', v'⟩ := kv
    by_cases h : k' = k
    · subst h
      simp [cacheSet, cacheGet]
    · simp [cacheSet, cacheGet, h, ih]

/-- Writing one key leaves every other key unchanged. -/
lemma cacheGet_cacheSet_ne (c : EmbCache) {k k' : String} (h : k' ≠ k) (v : List ℚ) :
    cacheGet (cacheSet c k' v) k = cacheGet c k := by
  induction c with
  | nil => simp [cacheSet, cacheGet, h]
  | cons kv rest ih =>
    obtain ⟨k0, v0⟩ := kv
    by_cases h0 : k0 = k'
    · subst h0
      have hk : ¬ k0 = k := h
      simp [cacheSet, cacheGet, hk]
    · by_cases h1 : k0 = k
      · subst h1
        simp [cacheSet, cacheGet, h0]
      · simp [cacheSet, cacheGet, h0, h1, ih]

/-- Writes never erase a present key. -/
lemma cacheGet_cacheSet_isSome (c : EmbCache) (k' : String) (v : List ℚ) {k : String}
    (h : (cacheGet c k).isSome) : (cacheGet (cacheSet c k' v) k).isSome := by
  by_cases hk : k' = k
  · subst hk
    rw [cacheGet_cacheSet_self]
    rfl
  · rw [cacheGet_cacheSet_ne c hk]
    exact h

/-- The write-back leaves keys outside the batch unchanged. -/
lemma cacheGet_writeBack_ne {pairs : List (Product × List ℚ)} {k : String}
    (h : ∀ pr ∈ pairs, pr.1._id ≠ k) (c : EmbCache) :
    cacheGet (writeBack pairs c) k = cacheGet c k := by
  induction pairs generalizing c with
  | nil => rfl
  | cons pr rest ih =>
    show cacheGet (writeBack rest (cacheSet c pr.1._id pr.2)) k = cacheGet c k
    rw [ih (fun q hq => h q (List.mem_cons_of_mem _ hq))]
    exact cacheGet_cacheSet_ne c (h pr (List.mem_cons_self _ _)) _

/-- The write-back never erases a present key. -/
lemma cacheGet_writeBack_isSome {pairs : List (Product × List ℚ)} {k : String}
    (c : EmbCache) (h : (cacheGet c k).isSome) :
    (cacheGet (writeBack pairs c) k).isSome := by
  induction pairs generalizing c with
  | nil => exact h
  | cons pr rest ih =>
    exact ih _ (cacheGet_cacheSet_isSome c pr.1._id pr.2 h)

/-- A batch member that appears in the write-back pairs ends up cached. -/
lemma cacheGet_writeBack_mem {pairs : List (Product × List ℚ)} {p : Product} {e : List ℚ}
    (hp : (p, e) ∈ pairs) (c : EmbCache) :
    (cacheGet (writeBack pairs c) p._id).isSome := by
  induction pairs generalizing c with
  | nil => cases hp
  | cons pr rest ih =>
    rcases List.mem_cons.mp hp with heq | h
    · subst heq
      show (cacheGet (writeBack rest (cacheSet c p._id e)) p._id).isSome
      exact cacheGet_writeBack_isSome _ (by rw [cacheGet_cacheSet_self]; rfl)
    · show (cacheGet (writeBack rest (cacheSet c pr.1._id pr.2)) p._id).isSome
      exact ih h _

/-- A member of a list at most as long as another is paired in their zip. -/
lemma exists_mem_zip {l1 : List α} {l2 : List β} {p : α} (hp : p ∈ l1)
    (hlen : l1.length ≤ l2.length) : ∃ e, (p, e) ∈ l1.zip l2 := by
  induction l1 generalizing l2 with
  | nil => cases hp
  | cons a as ih =>
    cases l2 with
    | nil => simp at hlen
    | cons b bs =>
      rcases List.mem_cons.mp hp with rfl | h
      · exact ⟨b, List.mem_cons_self _ _⟩
      · obtain ⟨e, he⟩ := ih h (by simpa using Nat.le_of_succ_le_succ hlen)
        exact ⟨e, List.mem_cons_of_mem _ he⟩

/-- bump does not touch the cache. -/
lemma cacheOut_bump (r : EmbRun) : (bump r).cacheOut = r.cacheOut := by
  cases r <;> rfl

/-- A bumped run that succeeded came from a success with one call less. -/
lemma bump_eq_ok {r : EmbRun} {c : EmbCache} {n : Nat} (h : bump r = EmbRun.ok c n) :
    ∃ m, r = EmbRun.ok c m ∧ n = m + 1 := by
  cases r with
  | ok c' m =>
    have h' : EmbRun.ok c' (m + 1) = EmbRun.ok c n := h
    injection h' with h1 h2
    exact ⟨m, by rw [h1], h2.symm⟩
  | fail e c' m => simp [bump] at h

/-- A bumped run that failed came from a failure with one call less. -/
lemma bump_eq_fail {r : EmbRun} {e : String} {c : EmbCache} {n : Nat}
    (h : bump r = EmbRun.fail e c n) : ∃ m, r = EmbRun.fail e c m ∧ n = m + 1 := by
  cases r with
  | ok c' m => simp [bump] at h
  | fail e' c' m =>
    have h' : EmbRun.fail e' c' (m + 1) = EmbRun.fail e c n := h
    injection h' with h0 h1 h2
    exact ⟨m, by rw [h0, h1], h2.symm⟩

/-- Keys no valid product of any batch carries are untouched by the whole
run — on success and on failure alike. -/
lemma processBatches_cacheOut_get (provider : AIProvider) (embed : EmbedOracle) :
    ∀ (chunks : List (List Product)) (cache : EmbCache) (k : String),
      (∀ b ∈ chunks, ∀ p ∈ b, trimStr (joinedText p) ≠ "" → p._id ≠ k) →
      cacheGet (processBatches provider embed chunks cache).cacheOut k = cacheGet cache k := by
  intro chunks
  induction chunks with
  | nil => intro cache k _; rfl
  | cons batch rest ih =>
    intro cache k h
    have hrest : ∀ b ∈ rest, ∀ p ∈ b, trimStr (joinedText p) ≠ "" → p._id ≠ k :=
      fun b hb => h b (List.mem_cons_of_mem _ hb)
    by_cases hv : (validOf batch).isEmpty
    · simp only [processBatches]
      rw [if_pos hv]
      exact ih cache k hrest
    · simp only [processBatches]
      rw [if_neg hv]
      cases hemb : embed ((validOf batch).map joinedText) with
      | error e => rfl
      | ok embs =>
        have hpairs : ∀ pr ∈ (validOf batch).zip embs, pr.1._id ≠ k := by
          intro pr hpr
          have h1 : pr.1 ∈ validOf batch := (List.of_mem_zip hpr).1
          have h2 := List.mem_filter.mp h1
          exact h batch (List.mem_cons_self _ _) pr.1 h2.1 (of_decide_eq_true h2.2)
        show cacheGet (bump (processBatches provider embed rest
          (writeBack ((validOf batch).zip embs) cache))).cacheOut k = cacheGet cache k
        rw [cacheOut_bump, ih (writeBack ((validOf batch).zip embs) cache) k hrest]
        exact cacheGet_writeBack_ne hpairs cache

/-- A key present in the cache stays present through the whole run. -/
lemma processBatches_isSome_mono (provider : AIProvider) (embed : EmbedOracle) :
    ∀ (chunks : List (List Product)) (cache : EmbCache) {k : String},
      (cacheGet cache k).isSome →
      (cacheGet (processBatches provider embed chunks cache).cacheOut k).isSome := by
  intro chunks
  induction chunks with
  | nil => intro cache k h; exact h
  | cons batch rest ih =>
    intro cache k h
    by_cases hv : (validOf batch).isEmpty
    · simp only [processBatches]
      rw [if_pos hv]
      exact ih cache h
    · simp only [processBatches]
      rw [if_neg hv]
      cases hemb : embed ((validOf batch).map joinedText) with
      | error e => exact h
      | ok embs =>
        show (cacheGet (bump (processBatches provider embed rest
          (writeBack ((validOf batch).zip embs) cache))).cacheOut k).isSome
        rw [cacheOut_bump]
        exact ih _ (cacheGet_writeBack_isSome cache h)

/-- On a successful run, every valid product of every batch is cached. -/
lemma processBatches_writes (provider : AIProvider) (embed : EmbedOracle)
    (hlen : ∀ ts r, embed ts = Except.ok r → r.length = ts.length) :
    ∀ (chunks : List (List Product)) (cache : EmbCache) (c : EmbCache) (n : Nat),
      processBatches provider embed chunks cache = EmbRun.ok c n →
      ∀ b ∈ chunks, ∀ p ∈ b, trimStr (joinedText p) ≠ "" → (cacheGet c p._id).isSome := by
  intro chunks
  induction chunks with
  | nil =>
    intro cache c n hrun b hb
    cases hb
  | cons batch rest ih =>
    intro cache c n hrun b hb p hp htext
    simp only [processBatches] at hrun
    by_cases hv : (validOf batch).isEmpty
    · rw [if_pos hv] at hrun
      rcases List.mem_cons.mp hb with rfl | hb'
      · exfalso
        have hpv : p ∈ validOf b := List.mem_filter.mpr ⟨hp, decide_eq_true htext⟩
        rw [List.isEmpty_iff.mp hv] at hpv
        cases hpv
      · exact ih cache c n hrun b hb' p hp htext
    · rw [if_neg hv] at hrun
      cases hemb : embed ((validOf batch).map joinedText) with
      | error e =>
        rw [hemb] at hrun
        exact absurd hrun (by simp)
      | ok embs =>
        rw [hemb] at hrun
        obtain ⟨m, hm, hn⟩ := bump_eq_ok hrun
        rcases List.mem_cons.mp hb with rfl | hb'
        · have hpv : p ∈ validOf b := List.mem_filter.mpr ⟨hp, decide_eq_true htext⟩
          have hzlen : (validOf b).length ≤ embs.length := by
            rw [hlen _ _ hemb, List.length_map]
          obtain ⟨e, he⟩ := exists_mem_zip hpv hzlen
          have hw : (cacheGet (writeBack ((validOf b).zip embs) cache) p._id).isSome :=
            cacheGet_writeBack_mem he cache
          have := processBatches_isSome_mono provider embed rest _ hw
          rw [hm] at this
          exact this
        · exact ih _ _ _ hm b hb' p hp htext

/-- A failed run is a successful run of a prefix of the batches, stopped at
a batch whose provider call threw; the cache at failure is exactly the
prefix run's cache, and the surfaced error is the translated thrown one. -/
lemma processBatches_fail_prefix (provider : AIProvider) (embed : EmbedOracle) :
    ∀ (chunks : List (List Product)) (cache : EmbCache) (e : String) (c : EmbCache) (n : Nat),
      processBatches provider embed chunks cache = EmbRun.fail e c n →
      ∃ j m e0,
        processBatches provider embed (chunks.take j) cache = EmbRun.ok c m ∧
        embed ((validOf (chunks.getD j [])).map joinedText) = Except.error e0 ∧
        e = translateEmbedError provider e0 := by
  intro chunks
  induction chunks with
  | nil =>
    intro cache e c n hrun
    exact absurd hrun (by simp [processBatches])
  | cons batch rest ih =>
    intro cache e c n hrun
    simp only [processBatches] at hrun
    by_cases hv : (validOf batch).isEmpty
    · rw [if_pos hv] at hrun
      obtain ⟨j, m, e0, h1, h2, h3⟩ := ih cache e c n hrun
      refine ⟨j + 1, m, e0, ?_, ?_, h3⟩
      · simp only [List.take_succ_cons, processBatches]
        rw [if_pos hv]
        exact h1
      · simpa [List.getD_cons_succ] using h2
    · rw [if_neg hv] at hrun
      cases hemb : embed ((validOf batch).map joinedText) with
      | error e0 =>
        rw [hemb] at hrun
        have hrun' : EmbRun.fail (translateEmbedError provider e0) cache 1
            = EmbRun.fail e c n := hrun
        injection hrun' with h1 h2 h3
        refine ⟨0, 0, e0, ?_, ?_, h1.symm⟩
        · rw [← h2]
          rfl
        · simpa [List.getD_cons_zero] using hemb
      | ok embs =>
        rw [hemb] at hrun
        obtain ⟨m0, hm0, hn0⟩ := bump_eq_fail hrun
        obtain ⟨j, m, e0, h1, h2, h3⟩ :=
          ih (writeBack ((validOf batch).zip embs) cache) e c m0 hm0
        refine ⟨j + 1, m + 1, e0, ?_, ?_, h3⟩
        · simp only [List.take_succ_cons, processBatches]
          rw [if_neg hv, hemb]
          show bump (processBatches provider embed (List.take j rest)
            (writeBack ((validOf batch).zip embs) cache)) = EmbRun.ok c (m + 1)
          rw [h1]
          rfl
        · simpa [List.getD_cons_succ] using h2

/-- When every batch still holds an invalid (empty-text) member only, the
run makes no call and leaves the cache unchanged. -/
lemma processBatches_all_invalid (provider : AIProvider) (embed : EmbedOracle) :
    ∀ (chunks : List (List Product)) (cache : EmbCache),
      (∀ b ∈ chunks, validOf b = []) →
      processBatches provider embed chunks cache = EmbRun.ok cache 0 := by
  intro chunks
  induction chunks with
  | nil => intro cache _; rfl
  | cons batch rest ih =>
    intro cache h
    simp only [processBatches]
    rw [if_pos (by rw [List.isEmpty_iff]; exact h batch (List.mem_cons_self _ _))]
    exact ih cache (fun b hb => h b (List.mem_cons_of_mem _ hb))

/-- When every batch has a valid member and the provider never throws, the
run succeeds and makes exactly one call per batch. -/
lemma processBatches_count (provider : AIProvider) (embed : EmbedOracle)
    (hok : ∀ ts, ∃ r, embed ts = Except.ok r) :
    ∀ (chunks : List (List Product)) (cache : EmbCache),
      (∀ b ∈ chunks, validOf b ≠ []) →
      ∃ c, processBatches provider embed chunks cache = EmbRun.ok c chunks.length := by
  intro chunks
  induction chunks with
  | nil => intro cache _; exact ⟨cache, rfl⟩
  | cons batch rest ih =>
    intro cache h
    have hv : ¬ (validOf batch).isEmpty = true := by
      rw [List.isEmpty_iff]
      exact h batch (List.mem_cons_self _ _)
    obtain ⟨r, hr⟩ := hok ((validOf batch).map joinedText)
    obtain ⟨c, hc⟩ := ih (writeBack ((validOf batch).zip r) cache)
      (fun b hb => h b (List.mem_cons_of_mem _ hb))
    refine ⟨c, ?_⟩
    simp only [processBatches]
    rw [if_neg hv, hr]
    show bump (processBatches provider embed rest (writeBack ((validOf batch).zip r) cache))
      = EmbRun.ok c (batch :: rest).length
    rw [hc]
    rfl

/-! ## Fixtures for the cache claims -/

/-- A product with a non-empty embedding text. -/
def pX : Product :=
  { _id := "x", title := "x", description := "", category := "", type := "",
    price := 0, width := 0, height := 0, depth := 0 }

/-- A product whose four text fields are all empty, so its joined embedding
text is empty. -/
def pEmptyText : Product := prodP "empty" 0

/-- A well-behaved embedding client: one unit vector per input text. -/
def embedOk1 : EmbedOracle := fun ts => Except.ok (ts.map (fun _ => [1]))

/-- An embedding client that always throws. -/
def embedFail : EmbedOracle := fun _ => Except.error "boom"

/-- A cache holding one entry left over from an earlier request. -/
def cacheOld : EmbCache := [("old", [1])]

/-- chunksOf 100 on a one-element list. -/
lemma chunksOf100_singleton (p : Product) : chunksOf 100 [p] = [[p]] := by
  rw [chunksOf_cons (by simp) (by norm_num)]
  rw [show List.drop 100 [p] = ([] : List Product) from rfl, chunksOf_nil]
  rfl

/-- The one-product success run, computed. -/
lemma run_pX_ok :
    getProductEmbeddings AIProvider.openai embedOk1 [pX] [] = EmbRun.ok [("x", [1])] 1 := by
  show processBatches AIProvider.openai embedOk1 (chunksOf 100 (missingOf [pX] [])) [] = _
  rw [show missingOf [pX] [] = [pX] from rfl, chunksOf100_singleton]
  rfl

/-- The one-product failing run, computed. -/
lemma run_pX_fail :
    getProductEmbeddings AIProvider.openai embedFail [pX] cacheOld
      = EmbRun.fail "boom" cacheOld 1 := by
  show processBatches AIProvider.openai embedFail (chunksOf 100 (missingOf [pX] cacheOld))
    cacheOld = _
  rw [show missingOf [pX] cacheOld = [pX] from rfl, chunksOf100_singleton]
  rfl

/-! ## Claim C6 -/

/-- C6, counterexample: a single missing product whose joined embedding text
is empty — the whole batch is skipped (line 441), so zero provider calls are
made although ceil(N/B) = ceil(1/100) = 1. -/
theorem C6_counterexample :
    missingOf [pEmptyText] [] = [pEmptyText] ∧
    getProductEmbeddings AIProvider.openai embedOk1 [pEmptyText] [] = EmbRun.ok [] 0 ∧
    ceilDiv 1 100 = 1 ∧
    ¬ ((0 : Nat) = 1) := by
  refine ⟨rfl, ?_, rfl, by norm_num⟩
  show processBatches AIProvider.openai embedOk1 (chunksOf 100 (missingOf [pEmptyText] []))
    [] = _
  rw [show missingOf [pEmptyText] [] = [pEmptyText] from rfl, chunksOf100_singleton]
  rfl

/-- C6, amended: when every item has non-empty joined text and the provider
answers, exactly ceil(N/100) calls are made for N missing items (a batch
holding only empty-text items would be skipped without a call); an item set
already fully cached makes zero calls and returns the cache unchanged; and a
second call with the same item set after a successful run (against a
provider answering one embedding per text) makes zero additional calls. -/
theorem C6_batching_amended :
    (∀ (provider : AIProvider) (embed : EmbedOracle) (products : List Product)
       (cache : EmbCache),
      (∀ ts, ∃ r, embed ts = Except.ok r) →
      (∀ p ∈ products, trimStr (joinedText p) ≠ "") →
      ∃ c, getProductEmbeddings provider embed products cache
        = EmbRun.ok c (ceilDiv (missingOf products cache).length 100)) ∧
    (∀ (provider : AIProvider) (embed : EmbedOracle) (products : List Product)
       (cache : EmbCache),
      missingOf products cache = [] →
      getProductEmbeddings provider embed products cache = EmbRun.ok cache 0) ∧
    (∀ (provider : AIProvider) (embed : EmbedOracle) (products : List Product)
       (cache : EmbCache) (c : EmbCache) (n : Nat),
      (∀ ts r, embed ts = Except.ok r → r.length = ts.length) →
      getProductEmbeddings provider embed products cache = EmbRun.ok c n →
      getProductEmbeddings provider embed products c = EmbRun.ok c 0) := by
  have h100 : (100 : Nat) ≠ 0 := by norm_num
  refine ⟨?_, ?_, ?_⟩
  · intro provider embed products cache hok htext
    have hvalid : ∀ b ∈ chunksOf 100 (missingOf products cache), validOf b ≠ [] := by
      intro b hb
      have hbne := ne_nil_of_mem_chunksOf h100 _ hb
      have heq : validOf b = b := by
        rw [validOf, List.filter_eq_self]
        intro p hp
        have hpm : p ∈ products :=
          (List.mem_filter.mp (mem_of_mem_chunksOf h100 hb hp)).1
        exact decide_eq_true (htext p hpm)
      rw [heq]
      exact hbne
    obtain ⟨c, hc⟩ := processBatches_count provider embed hok _ cache hvalid
    refine ⟨c, ?_⟩
    show processBatches provider embed (chunksOf 100 (missingOf products cache)) cache = _
    rw [hc, chunksOf_length h100]
    rfl
  · intro provider embed products cache h
    show processBatches provider embed (chunksOf 100 (missingOf products cache)) cache = _
    rw [h, chunksOf_nil]
    rfl
  · intro provider embed products cache c n hlen hrun
    have hrun' : processBatches provider embed (chunksOf 100 (missingOf products cache))
        cache = EmbRun.ok c n := hrun
    have hsome : ∀ p ∈ products, trimStr (joinedText p) ≠ "" →
        (cacheGet c p._id).isSome := by
      intro p hp htext
      by_cases hcached : (cacheGet cache p._id).isSome
      · have := processBatches_isSome_mono provider embed
          (chunksOf 100 (missingOf products cache)) cache hcached
        rw [hrun'] at this
        exact this
      · have hnone : cacheGet cache p._id = none :=
          Option.not_isSome_iff_eq_none.mp hcached
        have hmiss : p ∈ missingOf products cache := by
          rw [missingOf, List.mem_filter]
          refine ⟨hp, ?_⟩
          rw [hnone]
          rfl
        obtain ⟨b, hb, hpb⟩ := exists_chunk_of_mem h100 hmiss
        exact processBatches_writes provider embed hlen _ cache c n hrun' b hb p hpb htext
    have hinv : ∀ b ∈ chunksOf 100 (missingOf products c), validOf b = [] := by
      intro b hb
      rw [validOf, List.filter_eq_nil]
      intro p hp
      have hpm := mem_of_mem_chunksOf h100 hb hp
      rw [missingOf, List.mem_filter] at hpm
      obtain ⟨hpp, hnone⟩ := hpm
      intro hdec
      have htext := of_decide_eq_true hdec
      have hs := hsome p hpp htext
      rw [Option.isNone_iff_eq_none.mp hnone] at hs
      cases hs
    show processBatches provider embed (chunksOf 100 (missingOf products c)) c = _
    exact processBatches_all_invalid provider embed _ c hinv

/-- Witness for C6: one uncached product with non-empty text makes
ceil(1/100) = 1 call; a fully cached or just-computed set makes zero. -/
theorem C6_witness :
    (∃ c, getProductEmbeddings AIProvider.openai embedOk1 [pX] []
      = EmbRun.ok c (ceilDiv (missingOf [pX] []).length 100)) ∧
    getProductEmbeddings AIProvider.openai embedOk1 [] cacheOld
      = EmbRun.ok cacheOld 0 ∧
    getProductEmbeddings AIProvider.openai embedOk1 [pX] [("x", [1])]
      = EmbRun.ok [("x", [1])] 0 := by
  refine ⟨C6_batching_amended.1 AIProvider.openai embedOk1 [pX] []
      (fun ts => ⟨_, rfl⟩) ?_,
    C6_batching_amended.2.1 AIProvider.openai embedOk1 [] cacheOld rfl,
    C6_batching_amended.2.2 AIProvider.openai embedOk1 [pX] [] [("x", [1])] 1 ?_ run_pX_ok⟩
  · intro p hp
    rcases List.mem_cons.mp hp with rfl | h
    · decide
    · cases h
  · intro ts r h
    have h' : Except.ok (ts.map (fun _ => [(1 : ℚ)])) = Except.ok r := h
    injection h' with h2
    rw [← h2, List.length_map]

/-! ## Claim C7 -/

/-- C7: a failing run leaves every pre-existing cache entry readable and
unchanged, and its final cache state is exactly the state after the longest
successful prefix of batches; the failing batch's provider call threw, and
the surfaced error is the translated thrown error — no entry of the failing
or any later batch is written. -/
theorem C7_batch_atomicity :
    ∀ (provider : AIProvider) (embed : EmbedOracle) (products : List Product)
      (cache : EmbCache) (e : String) (c : EmbCache) (n : Nat),
      getProductEmbeddings provider embed products cache = EmbRun.fail e c n →
      ((∀ k v, cacheGet cache k = some v → cacheGet c k = some v) ∧
       ∃ j m e0,
         processBatches provider embed
           ((chunksOf 100 (missingOf products cache)).take j) cache = EmbRun.ok c m ∧
         embed ((validOf ((chunksOf 100 (missingOf products cache)).getD j [])).map
           joinedText) = Except.error e0 ∧
         e = translateEmbedError provider e0) := by
  intro provider embed products cache e c n hrun
  have hrun' : processBatches provider embed (chunksOf 100 (missingOf products cache))
      cache = EmbRun.fail e c n := hrun
  constructor
  · intro k v hkv
    have hcond : ∀ b ∈ chunksOf 100 (missingOf products cache), ∀ p ∈ b,
        trimStr (joinedText p) ≠ "" → p._id ≠ k := by
      intro b hb p hp _ hneq
      have hpm := mem_of_mem_chunksOf (show (100 : Nat) ≠ 0 by norm_num) hb hp
      rw [missingOf, List.mem_filter] at hpm
      have hnone : cacheGet cache p._id = none := Option.isNone_iff_eq_none.mp hpm.2
      rw [hneq, hkv] at hnone
      cases hnone
    have hpre := processBatches_cacheOut_get provider embed _ cache k hcond
    rw [hrun'] at hpre
    have hpre' : cacheGet c k = cacheGet cache k := hpre
    rw [hpre', hkv]
  · exact processBatches_fail_prefix provider embed _ cache e c n hrun'

/-- Witness for C7: the one-product run against a throwing provider fails
with the cache unchanged, and the conclusion holds at that run. -/
theorem C7_witness :
    (∀ k v, cacheGet cacheOld k = some v → cacheGet cacheOld k = some v) ∧
    ∃ j m e0,
      processBatches AIProvider.openai embedFail
        ((chunksOf 100 (missingOf [pX] cacheOld)).take j) cacheOld = EmbRun.ok cacheOld m ∧
      embedFail ((validOf ((chunksOf 100 (missingOf [pX] cacheOld)).getD j [])).map
        joinedText) = Except.error e0 ∧
      "boom" = translateEmbedError AIProvider.openai e0 :=
  C7_batch_atomicity AIProvider.openai embedFail [pX] cacheOld "boom" cacheOld 1 run_pX_fail

/-! ## Claim C10 -/

/-- C10: getProductEmbeddings returns the whole process-wide cache, so keys
no requested item carries (left over from earlier requests) are still
readable in the returned map exactly as before; a requested item whose
joined embedding text is empty (and whose identifier only empty-text items
carry) stays silently absent; and an item absent from the map gets semantic
score 0. -/
theorem C10_cache_scope :
    (∀ (provider : AIProvider) (embed : EmbedOracle) (products : List Product)
       (cache : EmbCache) (k : String),
      (∀ p ∈ products, p._id ≠ k) →
      cacheGet (getProductEmbeddings provider embed products cache).cacheOut k
        = cacheGet cache k) ∧
    (∀ (provider : AIProvider) (embed : EmbedOracle) (products : List Product)
       (cache : EmbCache) (p : Product),
      p ∈ products → cacheGet cache p._id = none →
      (∀ q ∈ products, q._id = p._id → trimStr (joinedText q) = "") →
      cacheGet (getProductEmbeddings provider embed products cache).cacheOut p._id
        = none) ∧
    (∀ (cosSim : List ℚ → List ℚ → ℚ) (qe : List ℚ) (pe : EmbCache) (product : Product),
      cacheGet pe product._id = none → semanticScoreOf cosSim qe pe product = 0) := by
  refine ⟨?_, ?_, ?_⟩
  · intro provider embed products cache k hk
    apply processBatches_cacheOut_get
    intro b hb p hp _
    have hpm := mem_of_mem_chunksOf (show (100 : Nat) ≠ 0 by norm_num) hb hp
    exact hk p (List.mem_filter.mp hpm).1
  · intro provider embed products cache p hp hnone hsame
    have hpre := processBatches_cacheOut_get provider embed
      (chunksOf 100 (missingOf products cache)) cache p._id ?_
    · show cacheGet (processBatches provider embed
        (chunksOf 100 (missingOf products cache)) cache).cacheOut p._id = none
      rw [hpre, hnone]
    · intro b hb q hq htext heq
      have hqm := mem_of_mem_chunksOf (show (100 : Nat) ≠ 0 by norm_num) hb hq
      exact htext (hsame q (List.mem_filter.mp hqm).1 heq)
  · intro cosSim qe pe product h
    simp [semanticScoreOf, h]

/-- Witness for C10: the stale key survives the run untouched, and a product
missing from the embedding map scores 0 on the semantic signal. -/
theorem C10_witness :
    cacheGet (getProductEmbeddings AIProvider.openai embedOk1 [pX] cacheOld).cacheOut "old"
      = cacheGet cacheOld "old" ∧
    semanticScoreOf cos0 [] [] blankProduct = 0 :=
  ⟨C10_cache_scope.1 AIProvider.openai embedOk1 [pX] cacheOld "old" (by decide),
   C10_cache_scope.2.2 cos0 [] [] blankProduct rfl⟩

end FurnitureSearch
